import Mathlib

/-!
Verification of the cli-utils declarative apply engine.

This file gives a shallow embedding in Lean 4 of the parts of the
cli-utils code base that the specification's claims are about:

* `pkg/object` — `ObjMetadata` identity parsing/formatting, set
  arithmetic (`SetDiff`, `Union`, `SetEquals`) and the FNV-32a `Hash`;
* `pkg/object/graph` — the dependency resolver `SortObjs` (modelled
  from the specification, since only its test file is available);
* `pkg/apply/mutator` — the apply-time mutator's substitution step and
  the `readFieldValue`/`writeFieldValue` path guards;
* `pkg/apply/task` — the `ApplyTask.Start` per-object processing loop,
  including the APIService stream-error fallback to client-side apply.

Go strings are modelled as `List Char` (`GoStr`); Go maps used purely
for set semantics are modelled with `List.dedup`; fallible Go functions
return `Option`/`Except`.
-/

/-- Go strings, modelled as lists of characters. -/
abbrev GoStr := List Char

/-- `strings.HasPrefix s pat`: `pat` is a prefix of `s`. -/
def goStartsWith : GoStr → GoStr → Bool
  | _, [] => true
  | [], _ :: _ => false
  | c :: cs, p :: ps => c = p && goStartsWith cs ps

/-- `strings.Contains s pat`: `pat` occurs as a substring of `s`. -/
def goContains : GoStr → GoStr → Bool
  | [], pat => goStartsWith [] pat
  | c :: rest, pat => goStartsWith (c :: rest) pat || goContains rest pat

/-- Worker for `goReplaceAll`, structurally recursive on a fuel
counter.  Each step consumes at least one character of the input, so
fuel equal to the input length always suffices and the fuel-exhausted
branch is unreachable from `goReplaceAll`. -/
def goReplaceAllFuel (pat rep : GoStr) : Nat → GoStr → GoStr
  | _, [] => []
  | 0, s => s
  | fuel + 1, c :: rest =>
    if pat ≠ [] ∧ goStartsWith (c :: rest) pat = true then
      rep ++ goReplaceAllFuel pat rep fuel (rest.drop (pat.length - 1))
    else
      c :: goReplaceAllFuel pat rep fuel rest

/-- `strings.ReplaceAll s pat rep`: leftmost non-overlapping replacement
of every occurrence of `pat` in `s` by `rep`.  (The degenerate case
`pat = ""` is never exercised by the modelled code, which guards all
call sites with a non-empty pattern.) -/
def goReplaceAll (s pat rep : GoStr) : GoStr :=
  goReplaceAllFuel pat rep s.length s

/-- `strings.Index s c` for a single-character separator: split `s` at
the first occurrence of `c`, returning the parts before and after. -/
def splitFirst (c : Char) : GoStr → Option (GoStr × GoStr)
  | [] => none
  | x :: xs =>
    if x = c then some ([], xs)
    else
      match splitFirst c xs with
      | none => none
      | some (pre, post) => some (x :: pre, post)

/-- `strings.LastIndex s c` for a single-character separator: split `s`
at the last occurrence of `c`. -/
def splitLast (c : Char) (s : GoStr) : Option (GoStr × GoStr) :=
  match splitFirst c s.reverse with
  | none => none
  | some (a, b) => some (b.reverse, a.reverse)

/-! ## `pkg/object`: ObjMetadata -/

namespace object

/-- `schema.GroupKind`. -/
structure GroupKind where
  group : GoStr
  kind : GoStr
deriving DecidableEq, Repr

/-- `object.ObjMetadata`: the minimal identifying information for an
object — group/kind (not version), namespace and name. -/
structure ObjMetadata where
  Namespace : GoStr
  Name : GoStr
  GroupKind : GroupKind
deriving DecidableEq, Repr

/-- The RBAC API group (`rbacv1.GroupName`). -/
def rbacGroup : GoStr := "rbac.authorization.k8s.io".toList

/-- Membership in the `RBACGroupKind` map: the four RBAC kinds under
the RBAC group. -/
def isRBACGroupKind (gk : GroupKind) : Bool :=
  decide (gk.group = rbacGroup ∧
    (gk.kind = "Role".toList ∨ gk.kind = "ClusterRole".toList ∨
     gk.kind = "RoleBinding".toList ∨ gk.kind = "ClusterRoleBinding".toList))

/-- `object.CreateObjMetadata`: validates that name and kind are
non-empty. -/
def createObjMetadata (ns name : GoStr) (gk : GroupKind) : Option ObjMetadata :=
  if name = [] then none
  else if gk.kind = [] then none
  else some ⟨ns, name, gk⟩

/-- `ObjMetadata.String`: `{Namespace}_{Name}_{Group}_{Kind}`, with `:`
in RBAC names transcoded to `__`. -/
def objString (o : ObjMetadata) : GoStr :=
  let name := if isRBACGroupKind o.GroupKind
    then goReplaceAll o.Name [':'] ['_', '_'] else o.Name
  o.Namespace ++ '_' :: (name ++ '_' :: (o.GroupKind.group ++ '_' :: o.GroupKind.kind))

/-- `object.ParseObjMetadata`: split into namespace (first `_`), kind
(last `_`), group (next-to-last `_`) and name; un-transcode `__` to `:`
in the name; reject names still containing `_`. -/
def parseObjMetadata (s : GoStr) : Option ObjMetadata :=
  match splitFirst '_' s with
  | none => none
  | some (ns, s1) =>
    match splitLast '_' s1 with
    | none => none
    | some (s2, kind) =>
      match splitLast '_' s2 with
      | none => none
      | some (rawName, group) =>
        let name := goReplaceAll rawName ['_', '_'] [':']
        if '_' ∈ name then none
        else createObjMetadata ns name ⟨group, kind⟩

/-! ## `pkg/object`: set arithmetic and hashing -/

/-- `object.SetDiff`: the elements of `setA` (as a set) that are not in
`setB`.  The Go code materialises `setA` as map keys and deletes the
elements of `setB`; the output order of a Go map range is arbitrary, so
only the set of returned elements is modelled. -/
def SetDiff (setA setB : List ObjMetadata) : List ObjMetadata :=
  setA.dedup.filter (fun a => decide (a ∉ setB))

/-- `object.Union`: the set of unique items of the merge of the two
slices. -/
def Union (setA setB : List ObjMetadata) : List ObjMetadata :=
  (setA ++ setB).dedup

/-- `object.SetEquals`: builds key maps of both slices, compares sizes
and checks every key of B's map is in A's map. -/
def SetEquals (setA setB : List ObjMetadata) : Bool :=
  decide (setA.dedup.length = setB.dedup.length) &&
    setB.dedup.all (fun b => decide (b ∈ setA.dedup))

/-- FNV-32a offset basis. -/
def fnvOffsetBasis : Nat := 2166136261

/-- FNV-32a prime. -/
def fnvPrime : Nat := 16777619

/-- One byte step of FNV-32a: `(h XOR b) * prime mod 2^32`. -/
def fnv32aByte (h b : Nat) : Nat := ((h ^^^ b) * fnvPrime) % 4294967296

/-- UTF-8 encoding of a character, as the list of its byte values
(`h.Write([]byte(obj))` hashes the UTF-8 bytes of the string). -/
def utf8Bytes (c : Char) : List Nat :=
  let n := c.toNat
  if n < 128 then [n]
  else if n < 2048 then [192 + n / 64, 128 + n % 64]
  else if n < 65536 then [224 + n / 4096, 128 + (n / 64) % 64, 128 + n % 64]
  else [240 + n / 262144, 128 + (n / 4096) % 64, 128 + (n / 64) % 64, 128 + n % 64]

/-- Feed one string into the FNV-32a state. -/
def fnv32aString (h : Nat) (s : GoStr) : Nat :=
  s.foldl (fun acc c => (utf8Bytes c).foldl fnv32aByte acc) h

/-- `sort.Strings`: sort lexicographically (Go compares bytewise; on
UTF-8 this equals code-point order, which is the `List Char` order).
Any comparison sort computes the same function of its input multiset,
so insertion sort stands in for Go's introsort. -/
def sortStrings (l : List GoStr) : List GoStr :=
  l.insertionSort (fun a b => a ≤ b)

/-- `object.calcHash`: sort the strings, then hash them in order with
FNV-32a. -/
def calcHash (objs : List GoStr) : Nat :=
  (sortStrings objs).foldl fnv32aString fnvOffsetBasis

/-- `strconv.FormatUint h 16`. -/
def formatHex (n : Nat) : GoStr := Nat.toDigits 16 n

/-- `object.Hash`: hex-formatted FNV-32a hash of the sorted serialized
identities.  (The Go version also returns an error, but the underlying
`hash.Hash32.Write` never fails.) -/
def Hash (objs : List ObjMetadata) : GoStr :=
  formatHex (calcHash (objs.map objString))

end object

/-! ## `pkg/object/graph`: the dependency resolver

The implementation of `SortObjs` is not among the available sources
(only its test file `depends_test.go` is); the resolver below is
modelled from the specification (§4.B DependencyGraph, §4.C
ResolverPipeline), with the shape of the result taken from the test
expectations: external dependency identities participate as graph
vertices and are reported per wave separately from the input objects. -/

namespace graph

open object

/-- Modelled from the spec: a parsed input object — its identity plus
the already-parsed `depends-on` references, `apply-time-mutation`
source references, and (for a `CustomResourceDefinition`) the
group/kind it defines. -/
structure KObj where
  id : ObjMetadata
  dependsOn : List ObjMetadata
  mutationRefs : List ObjMetadata
  crdDefines : Option GroupKind
deriving DecidableEq, Repr

/-- A directed dependency edge `from → to`: `to` must be realized
before `from`. -/
abbrev Edge := ObjMetadata × ObjMetadata

/-- Modelled from the spec: `Graph.AddEdge` — idempotent, self-loops
are rejected. -/
def addEdge (edges : List Edge) (a b : ObjMetadata) : List Edge :=
  if a = b then edges
  else if (a, b) ∈ edges then edges
  else edges ++ [(a, b)]

/-- The identities of the input objects. -/
def inputIds (objs : List KObj) : List ObjMetadata :=
  objs.map (fun o => o.id)

/-- Modelled from the spec: referenced identities that are not in the
input set become external dependencies (deduplicated). -/
def externalIds (objs : List KObj) : List ObjMetadata :=
  ((objs.flatMap (fun o => o.dependsOn ++ o.mutationRefs)).filter
    (fun dep => decide (dep ∉ inputIds objs))).dedup

/-- A namespace object: kind `Namespace` in the core (empty) group. -/
def isNamespaceObj (o : KObj) : Bool :=
  decide (o.id.GroupKind.group = [] ∧ o.id.GroupKind.kind = "Namespace".toList)

/-- Modelled from the spec: the edge candidates produced by the four
resolver passes — explicit `depends-on`, apply-time-mutation
references, namespace containment, and CRD-defines-kind. -/
def candidateEdges (objs : List KObj) : List Edge :=
  (objs.flatMap (fun o => o.dependsOn.map (fun dep => (o.id, dep)))) ++
  (objs.flatMap (fun o => o.mutationRefs.map (fun dep => (o.id, dep)))) ++
  (objs.flatMap (fun o => objs.filterMap (fun ns =>
      if isNamespaceObj ns = true ∧ o.id.Namespace ≠ [] ∧ o.id.Namespace = ns.id.Name
      then some (o.id, ns.id) else none))) ++
  (objs.flatMap (fun cr => objs.filterMap (fun crd =>
      match crd.crdDefines with
      | some gk => if cr.id.GroupKind = gk then some (cr.id, crd.id) else none
      | none => none)))

/-- The dependency graph's edge list: the candidates added in order
through `addEdge` (deduplicated, self-loops rejected). -/
def graphEdges (objs : List KObj) : List Edge :=
  (candidateEdges objs).foldl (fun es e => addEdge es e.1 e.2) []

/-- The graph's vertices: the input identities plus the external
dependency identities. -/
def vertices (objs : List KObj) : List ObjMetadata :=
  (inputIds objs ++ externalIds objs).dedup

/-- A vertex is a leaf when it has no out-edge to a remaining vertex. -/
def isLeaf (edges : List Edge) (remaining : List ObjMetadata) (v : ObjMetadata) : Bool :=
  !(edges.any (fun e => decide (e.1 = v ∧ e.2 ∈ remaining)))

/-- `CyclicDependencyError`, carrying the residual vertex set. -/
inductive SortError where
  | cyclicDependency (remaining : List ObjMetadata)
deriving DecidableEq, Repr

/-- Modelled from the spec: iterated leaf removal.  Each round removes
all current leaves as the next wave; if no leaf can be removed while
vertices remain, the input is cyclic and an error is returned (no
partial waves).  The fuel is the vertex count, which suffices because
every successful round removes at least one vertex. -/
def layersAux (edges : List Edge) : Nat → List ObjMetadata → Except SortError (List (List ObjMetadata))
  | 0, remaining =>
    if remaining = [] then .ok [] else .error (.cyclicDependency remaining)
  | fuel + 1, remaining =>
    if remaining = [] then .ok []
    else
      if remaining.filter (isLeaf edges remaining) = [] then
        .error (.cyclicDependency remaining)
      else
        match layersAux edges fuel (remaining.filter (fun v =>
            decide (v ∉ remaining.filter (isLeaf edges remaining)))) with
        | .error e => .error e
        | .ok ws => .ok (remaining.filter (isLeaf edges remaining) :: ws)

/-- Topological waves of vertex identities. -/
def sortIds (objs : List KObj) : Except SortError (List (List ObjMetadata)) :=
  layersAux (graphEdges objs) (vertices objs).length (vertices objs)

/-- Modelled from the spec: `SortObjs` — waves of input objects in
dependency order, paired with the external dependency identities of
each wave. -/
def sortObjs (objs : List KObj) :
    Except SortError (List (List KObj) × List (List ObjMetadata)) :=
  match sortIds objs with
  | .error e => .error e
  | .ok waves =>
    .ok (waves.map (fun w => objs.filter (fun o => decide (o.id ∈ w))),
         waves.map (fun w => w.filter (fun v => decide (v ∉ inputIds objs))))

/-- A directed cycle in an edge list: a non-empty vertex list whose
consecutive elements (wrapping around) are all edges. -/
def IsCycle (edges : List Edge) (c : List ObjMetadata) : Prop :=
  match c with
  | [] => False
  | v :: rest => List.Chain (fun a b => (a, b) ∈ edges) v (rest ++ [v])

end graph

/-! ## `pkg/apply/mutator`: the apply-time mutator -/

namespace mutator

/-- The left and right curly-brace characters (written via their code
points). -/
def lbraceChar : Char := Char.ofNat 123

def rbraceChar : Char := Char.ofNat 125

/-- JSON-shaped values (the yaml/json/krm primitives handled by
`valueToString`), with numbers restricted to integers.  The assoc-list
representation of a mapping is kept in the key order that Go's
`json.Marshal` emits (sorted keys), since a Go map has no order of its
own. -/
inductive KrmValue where
  | null
  | bool (b : Bool)
  | int (n : Int)
  | str (s : GoStr)
  | list (xs : List KrmValue)
  | map (kvs : List (GoStr × KrmValue))

/-- Decimal formatting of an integer (`fmt.Sprintf "%v"` on ints). -/
def intToDec (n : Int) : GoStr :=
  if n < 0 then '-' :: Nat.toDigits 10 n.natAbs else Nat.toDigits 10 n.toNat

/-- One hex digit (lowercase). -/
def hexDigit (n : Nat) : Char :=
  (Nat.toDigits 16 (n % 16)).headD '0'

/-- JSON escaping of one character, as done by Go's `json.Marshal`
(HTML-safe escaping of `<`, `>`, `&`, and of U+2028/U+2029). -/
def jsonEscapeChar (c : Char) : GoStr :=
  if c = '"' then ['\\', '"']
  else if c = '\\' then ['\\', '\\']
  else if c = '\n' then ['\\', 'n']
  else if c = '\r' then ['\\', 'r']
  else if c = '\t' then ['\\', 't']
  else if c.toNat < 32 then
    ['\\', 'u', '0', '0', hexDigit (c.toNat / 16), hexDigit c.toNat]
  else if c = '<' then ['\\', 'u', '0', '0', '3', 'c']
  else if c = '>' then ['\\', 'u', '0', '0', '3', 'e']
  else if c = '&' then ['\\', 'u', '0', '0', '2', '6']
  else if c.toNat = 8232 then ['\\', 'u', '2', '0', '2', '8']
  else if c.toNat = 8233 then ['\\', 'u', '2', '0', '2', '9']
  else [c]

/-- JSON escaping of a string body. -/
def jsonEscapeStr (s : GoStr) : GoStr := s.flatMap jsonEscapeChar

mutual

/-- `json.Marshal` on KRM values. -/
def jsonMarshal : KrmValue → GoStr
  | .null => "null".toList
  | .bool true => "true".toList
  | .bool false => "false".toList
  | .int n => intToDec n
  | .str s => '"' :: (jsonEscapeStr s ++ ['"'])
  | .list xs => '[' :: (jsonMarshalList xs ++ [']'])
  | .map kvs => lbraceChar :: (jsonMarshalMap kvs ++ [rbraceChar])

/-- Comma-separated JSON marshalling of list elements. -/
def jsonMarshalList : List KrmValue → GoStr
  | [] => []
  | [x] => jsonMarshal x
  | x :: y :: rest => jsonMarshal x ++ ',' :: jsonMarshalList (y :: rest)

/-- Comma-separated JSON marshalling of mapping entries. -/
def jsonMarshalMap : List (GoStr × KrmValue) → GoStr
  | [] => []
  | [(k, v)] => '"' :: (jsonEscapeStr k ++ '"' :: ':' :: jsonMarshal v)
  | (k, v) :: e :: rest =>
    ('"' :: (jsonEscapeStr k ++ '"' :: ':' :: jsonMarshal v)) ++ ',' :: jsonMarshalMap (e :: rest)

end

/-- `mutator.valueToString`: strings pass through; ints and bools are
formatted with `%v`; everything else is JSON-marshaled. -/
def valueToString : KrmValue → GoStr
  | .str s => s
  | .int n => intToDec n
  | .bool b => if b then "true".toList else "false".toList
  | v => jsonMarshal v

/-- The substitution step of `ApplyTimeMutator.Mutate` (lines 93-112):
with an empty token the entire target value is replaced by the source
value; otherwise the target value must be a string and every occurrence
of the token in it is replaced by the stringified source value. -/
def applySubValue (targetValue sourceValue : KrmValue) (token : GoStr) : Except GoStr KrmValue :=
  if token = [] then .ok sourceValue
  else
    match targetValue with
    | .str ts => .ok (.str (goReplaceAll ts token (valueToString sourceValue)))
    | _ => .error "token is specified, but target field value is not a string".toList

/-- `mutator.readFieldValue`: guards the path (non-empty, not starting
with a literal two-character prefix of dollar and dot), then delegates
to the opaque `kyq.Get` primitive. -/
def readFieldValue (kyqGet : KrmValue → GoStr → Except GoStr (Option KrmValue))
    (obj : KrmValue) (path : GoStr) : Except GoStr (Option KrmValue) :=
  if path = [] then .error "empty path expression".toList
  else if goStartsWith path "$.".toList then
    .error "path expression starts with $.: yq expressions should start with .".toList
  else kyqGet obj path

/-- `mutator.writeFieldValue`: same guards, then delegates to the
opaque `kyq.Set` primitive. -/
def writeFieldValue (kyqSet : KrmValue → GoStr → KrmValue → Except GoStr KrmValue)
    (obj : KrmValue) (path : GoStr) (value : KrmValue) : Except GoStr KrmValue :=
  if path = [] then .error "empty path expression".toList
  else if goStartsWith path "$.".toList then
    .error "path expression starts with $.: yq expressions should start with .".toList
  else kyqSet obj path value

end mutator

/-! ## `pkg/apply/task`: the ApplyTask per-object loop -/

namespace task

open object

/-- The marker substring of a wrapped stream error. -/
def streamErrorSub : GoStr := "stream error: stream ID ".toList

/-- `task.isAPIService`: group `apiregistration.k8s.io`, kind
`APIService`. -/
def isAPIService (id : ObjMetadata) : Bool :=
  decide (id.GroupKind.group = "apiregistration.k8s.io".toList ∧
          id.GroupKind.kind = "APIService".toList)

/-- `task.isStreamError`: the error message contains the stream-error
marker substring. -/
def isStreamError (msg : GoStr) : Bool := goContains msg streamErrorSub

/-- The error classifications wrapped into `ApplyFailed` events. -/
inductive FailKind where
  | unknownType
  | filterFailed
  | mutateFailed
  | applyRun
  | initializeApplyOption
deriving DecidableEq, Repr

/-- The apply-event operation emitted directly by the loop. -/
inductive ApplyEventOp where
  | unchanged
deriving DecidableEq, Repr

/-- Observable actions of `ApplyTask.Start`, in program order: events
sent on the event channel, resource-failure captures and applied-
resource records in the `TaskContext`, the client-side-apply fallback
call, and the final `TaskResult` on the task channel. -/
inductive TraceEv where
  | applyFailed (id : ObjMetadata) (kind : FailKind)
  | applyEvent (id : ObjMetadata) (op : ApplyEventOp)
  | captureResourceFailure (id : ObjMetadata)
  | resourceApplied (id : ObjMetadata) (uid : GoStr) (generation : Int)
  | clientSideApplied (id : ObjMetadata)
  | taskResult
deriving DecidableEq, Repr

/-- The environment an `ApplyTask` runs against: the per-object results
of the info helper, the filter chain, the mutator chain, `ao.Run`, the
client-side fallback, and the post-apply accessor. -/
structure ApplyEnv where
  serverSideApply : Bool
  buildInfo : ObjMetadata → Except GoStr Unit
  filterRes : ObjMetadata → Except GoStr Bool
  mutateRes : ObjMetadata → Except GoStr Unit
  applyRes : ObjMetadata → Option GoStr
  clientSideRes : ObjMetadata → Option GoStr
  accessorRes : ObjMetadata → Option (GoStr × Int)

/-- On apply success, record `(uid, generation)` when the accessor
succeeds (lines 353-360). -/
def successTrace (env : ApplyEnv) (id : ObjMetadata) : List TraceEv :=
  match env.accessorRes id with
  | some (uid, gen) => [.resourceApplied id uid gen]
  | none => []

/-- The apply dispatch (lines 336-360): on a server-side stream error
for an APIService, fall back to client-side apply; any remaining error
becomes an `ApplyFailed` with an `ApplyRunError`. -/
def applyPhase (env : ApplyEnv) (id : ObjMetadata) : List TraceEv :=
  match env.applyRes id with
  | none => successTrace env id
  | some msg =>
    if env.serverSideApply = true ∧ isAPIService id = true ∧ isStreamError msg = true then
      .clientSideApplied id ::
        (match env.clientSideRes id with
         | some _ => [.applyFailed id .applyRun, .captureResourceFailure id]
         | none => successTrace env id)
    else [.applyFailed id .applyRun, .captureResourceFailure id]

/-- One iteration of the object loop of `ApplyTask.Start`
(lines 293-361). -/
def processOne (env : ApplyEnv) (id : ObjMetadata) : List TraceEv :=
  match env.buildInfo id with
  | .error _ => [.applyFailed id .unknownType, .captureResourceFailure id]
  | .ok _ =>
    match env.filterRes id with
    | .error _ => [.applyFailed id .filterFailed, .captureResourceFailure id]
    | .ok true => [.applyEvent id .unchanged, .captureResourceFailure id]
    | .ok false =>
      match env.mutateRes id with
      | .error _ => [.applyFailed id .mutateFailed, .captureResourceFailure id]
      | .ok _ => applyPhase env id

/-- `ApplyTask.Start`: if creating the apply options fails, every
object gets an `InitializeApplyOptionError`; otherwise the objects are
processed in order; in all cases a `TaskResult` is sent on the task
channel after the loop. -/
def runApplyTask (env : ApplyEnv) (initError : Option GoStr)
    (ids : List ObjMetadata) : List TraceEv :=
  match initError with
  | some _ =>
    ids.flatMap (fun id => [.applyFailed id .initializeApplyOption,
                            .captureResourceFailure id]) ++ [.taskResult]
  | none => ids.flatMap (processOne env) ++ [.taskResult]

end task

/-! ## Definitions supporting the claims -/

/-- The well-formedness condition under which identity serialization
round-trips: none of the four fields contains the `_` field separator
(the name may still contain `:`). -/
def underscoreFree (o : object.ObjMetadata) : Prop :=
  '_' ∉ o.Namespace ∧ '_' ∉ o.Name ∧
  '_' ∉ o.GroupKind.group ∧ '_' ∉ o.GroupKind.kind

instance (o : object.ObjMetadata) : Decidable (underscoreFree o) := by
  unfold underscoreFree; infer_instance

/-- A non-RBAC identity whose name contains a double underscore; its
serialized form parses back with the `__` un-transcoded to `:`. -/
def doubleUnderscoreId : object.ObjMetadata :=
  ⟨[], "a__b".toList, ⟨[], "ConfigMap".toList⟩⟩

/-- A ClusterRole identity with a colon in its name (RBAC transcoding). -/
def clusterRoleId : object.ObjMetadata :=
  ⟨[], "system:admin".toList, ⟨object.rbacGroup, "ClusterRole".toList⟩⟩

/-- A plain deployment-like identity. -/
def plainId : object.ObjMetadata :=
  ⟨"test-namespace".toList, "foo".toList, ⟨"apps".toList, "Deployment".toList⟩⟩

/-- A minimal identity used in the hash counterexample. -/
def tinyId : object.ObjMetadata := ⟨[], ['a'], ⟨[], ['b']⟩⟩

/-- `Namespace(test-namespace)` from the namespace-wave scenario. -/
def namespaceObj : graph.KObj :=
  ⟨⟨[], "test-namespace".toList, ⟨[], "Namespace".toList⟩⟩, [], [], none⟩

/-- `Secret(secret, ns=test-namespace)` from the namespace-wave
scenario. -/
def secretObj : graph.KObj :=
  ⟨⟨"test-namespace".toList, "secret".toList, ⟨[], "Secret".toList⟩⟩, [], [], none⟩

/-- `Deployment(foo, ns=test-namespace)` from the namespace-wave
scenario. -/
def deploymentObj : graph.KObj :=
  ⟨⟨"test-namespace".toList, "foo".toList, ⟨"apps".toList, "Deployment".toList⟩⟩, [], [], none⟩

/-- The namespace-wave scenario input set. -/
def nsScenario : List graph.KObj := [namespaceObj, secretObj, deploymentObj]

/-- The cyclic scenario: the deployment depends on the secret and the
secret depends on the deployment. -/
def cycScenario : List graph.KObj :=
  [⟨deploymentObj.id, [secretObj.id], [], none⟩,
   ⟨secretObj.id, [deploymentObj.id], [], none⟩]

/-- The final error of the apply dispatch for one object: the `ao.Run`
error, replaced by the client-side-apply result when the APIService
stream-error fallback fires. -/
def finalApplyError (env : task.ApplyEnv) (id : object.ObjMetadata) : Option GoStr :=
  match env.applyRes id with
  | none => none
  | some msg =>
    if env.serverSideApply = true ∧ task.isAPIService id = true ∧
        task.isStreamError msg = true
    then env.clientSideRes id
    else some msg

/-- One of the four per-object failure modes of the `ApplyTask` loop:
info-building error, filter error, mutation error, or (final) apply
error. -/
def failsAt (env : task.ApplyEnv) (id : object.ObjMetadata) : Prop :=
  (∃ e, env.buildInfo id = .error e) ∨
  (∃ e, env.filterRes id = .error e) ∨
  (env.filterRes id = .ok false ∧ ∃ e, env.mutateRes id = .error e) ∨
  (env.filterRes id = .ok false ∧ env.mutateRes id = .ok () ∧
    finalApplyError env id ≠ none)

/-- A concrete apply environment: the secret id is filtered without
error, the deployment id fails mutation, everything else succeeds. -/
def envEx : task.ApplyEnv where
  serverSideApply := true
  buildInfo := fun _ => .ok ()
  filterRes := fun id => .ok (decide (id = secretObj.id))
  mutateRes := fun id =>
    if id = deploymentObj.id then .error "mutation failed".toList else .ok ()
  applyRes := fun _ => none
  clientSideRes := fun _ => none
  accessorRes := fun _ => none

/-- An opaque `kyq.Get` stand-in that succeeds on every path. -/
def constGet : mutator.KrmValue → GoStr → Except GoStr (Option mutator.KrmValue) :=
  fun _ _ => .ok (some (.int 1))

/-- An opaque `kyq.Set` stand-in that succeeds on every path. -/
def constSet : mutator.KrmValue → GoStr → mutator.KrmValue → Except GoStr mutator.KrmValue :=
  fun obj _ _ => .ok obj

/-! ## Supporting lemmas -/

lemma successTrace_none (env : task.ApplyEnv) (o : object.ObjMetadata)
    (h : env.accessorRes o = none) : task.successTrace env o = [] := by
  simp [task.successTrace, h]

lemma successTrace_some (env : task.ApplyEnv) (o : object.ObjMetadata)
    (uid : GoStr) (gen : Int) (h : env.accessorRes o = some (uid, gen)) :
    task.successTrace env o = [task.TraceEv.resourceApplied o uid gen] := by
  simp [task.successTrace, h]

lemma processOne_info_error (env : task.ApplyEnv) (o : object.ObjMetadata)
    (e : GoStr) (h : env.buildInfo o = .error e) :
    task.processOne env o =
      [task.TraceEv.applyFailed o .unknownType,
       task.TraceEv.captureResourceFailure o] := by
  simp [task.processOne, h]

lemma processOne_filter_error (env : task.ApplyEnv) (o : object.ObjMetadata)
    (e : GoStr) (hb : env.buildInfo o = .ok ()) (h : env.filterRes o = .error e) :
    task.processOne env o =
      [task.TraceEv.applyFailed o .filterFailed,
       task.TraceEv.captureResourceFailure o] := by
  simp [task.processOne, hb, h]

lemma processOne_filtered (env : task.ApplyEnv) (o : object.ObjMetadata)
    (hb : env.buildInfo o = .ok ()) (h : env.filterRes o = .ok true) :
    task.processOne env o =
      [task.TraceEv.applyEvent o .unchanged,
       task.TraceEv.captureResourceFailure o] := by
  simp [task.processOne, hb, h]

lemma processOne_mutate_error (env : task.ApplyEnv) (o : object.ObjMetadata)
    (e : GoStr) (hb : env.buildInfo o = .ok ()) (hf : env.filterRes o = .ok false)
    (h : env.mutateRes o = .error e) :
    task.processOne env o =
      [task.TraceEv.applyFailed o .mutateFailed,
       task.TraceEv.captureResourceFailure o] := by
  simp [task.processOne, hb, hf, h]

lemma processOne_apply (env : task.ApplyEnv) (o : object.ObjMetadata)
    (hb : env.buildInfo o = .ok ()) (hf : env.filterRes o = .ok false)
    (hm : env.mutateRes o = .ok ()) :
    task.processOne env o = task.applyPhase env o := by
  simp [task.processOne, hb, hf, hm]

lemma applyPhase_no_error (env : task.ApplyEnv) (o : object.ObjMetadata)
    (h : env.applyRes o = none) :
    task.applyPhase env o = task.successTrace env o := by
  simp [task.applyPhase, h]

lemma applyPhase_plain_error (env : task.ApplyEnv) (o : object.ObjMetadata)
    (msg : GoStr) (h : env.applyRes o = some msg)
    (hcond : ¬(env.serverSideApply = true ∧ task.isAPIService o = true ∧
               task.isStreamError msg = true)) :
    task.applyPhase env o =
      [task.TraceEv.applyFailed o .applyRun,
       task.TraceEv.captureResourceFailure o] := by
  simp [task.applyPhase, h, hcond]

lemma applyPhase_fallback_error (env : task.ApplyEnv) (o : object.ObjMetadata)
    (msg e2 : GoStr) (h : env.applyRes o = some msg)
    (hcond : env.serverSideApply = true ∧ task.isAPIService o = true ∧
             task.isStreamError msg = true)
    (hc : env.clientSideRes o = some e2) :
    task.applyPhase env o =
      [task.TraceEv.clientSideApplied o,
       task.TraceEv.applyFailed o .applyRun,
       task.TraceEv.captureResourceFailure o] := by
  simp [task.applyPhase, h, hcond, hc]

lemma applyPhase_fallback_ok (env : task.ApplyEnv) (o : object.ObjMetadata)
    (msg : GoStr) (h : env.applyRes o = some msg)
    (hcond : env.serverSideApply = true ∧ task.isAPIService o = true ∧
             task.isStreamError msg = true)
    (hc : env.clientSideRes o = none) :
    task.applyPhase env o =
      task.TraceEv.clientSideApplied o :: task.successTrace env o := by
  simp [task.applyPhase, h, hcond, hc]

lemma clientSideApplied_not_mem_successTrace (env : task.ApplyEnv)
    (o o2 : object.ObjMetadata) :
    task.TraceEv.clientSideApplied o ∉ task.successTrace env o2 := by
  cases h : env.accessorRes o2 with
  | none => rw [successTrace_none env o2 h]; simp
  | some p =>
    obtain ⟨uid, gen⟩ := p
    rw [successTrace_some env o2 uid gen h]; simp

lemma processOne_applyFailed_only (env : task.ApplyEnv)
    (o id : object.ObjMetadata) (k : task.FailKind) :
    task.TraceEv.applyFailed id k ∈ task.processOne env o → id = o := by
  intro h
  cases hb : env.buildInfo o with
  | error e => rw [processOne_info_error env o e hb] at h; simp at h; tauto
  | ok u =>
    cases u
    cases hf : env.filterRes o with
    | error e => rw [processOne_filter_error env o e hb hf] at h; simp at h; tauto
    | ok b =>
      cases b with
      | true => rw [processOne_filtered env o hb hf] at h; simp at h
      | false =>
        cases hm : env.mutateRes o with
        | error e => rw [processOne_mutate_error env o e hb hf hm] at h; simp at h; tauto
        | ok u2 =>
          cases u2
          rw [processOne_apply env o hb hf hm] at h
          cases ha : env.applyRes o with
          | none =>
            rw [applyPhase_no_error env o ha] at h
            cases hacc : env.accessorRes o with
            | none => rw [successTrace_none env o hacc] at h; simp at h
            | some p =>
              obtain ⟨uid, gen⟩ := p
              rw [successTrace_some env o uid gen hacc] at h; simp at h
          | some msg =>
            by_cases hcond : env.serverSideApply = true ∧
                task.isAPIService o = true ∧ task.isStreamError msg = true
            · cases hc : env.clientSideRes o with
              | none =>
                rw [applyPhase_fallback_ok env o msg ha hcond hc] at h
                cases hacc : env.accessorRes o with
                | none => rw [successTrace_none env o hacc] at h; simp at h
                | some p =>
                  obtain ⟨uid, gen⟩ := p
                  rw [successTrace_some env o uid gen hacc] at h; simp at h
              | some e2 =>
                rw [applyPhase_fallback_error env o msg e2 ha hcond hc] at h
                simp at h; tauto
            · rw [applyPhase_plain_error env o msg ha hcond] at h
              simp at h; tauto

/-! ## Claim theorems -/

/-- C9: `Union(A, B)` is the set union of `A` and `B` with each
distinct element exactly once, `SetDiff(A, B)` is the set difference
`A − B`, and `SetDiff(A, B)` united with the intersection of `A` and
`B` gives exactly the elements of `A`. -/
theorem objMetadata_set_ops (A B : List object.ObjMetadata) :
    ((object.Union A B).Nodup ∧ ∀ x, x ∈ object.Union A B ↔ x ∈ A ∨ x ∈ B) ∧
    ((object.SetDiff A B).Nodup ∧ ∀ x, x ∈ object.SetDiff A B ↔ x ∈ A ∧ x ∉ B) ∧
    (∀ x, (x ∈ object.SetDiff A B ∨ (x ∈ A ∧ x ∈ B)) ↔ x ∈ A) := by
  refine ⟨⟨List.nodup_dedup _, fun x => ?_⟩,
          ⟨(List.nodup_dedup _).filter _, fun x => ?_⟩, fun x => ?_⟩
  · simp [object.Union]
  · simp [object.SetDiff]
  · simp [object.SetDiff]
    by_cases hb : x ∈ B <;> simp [hb]

/-- C10: when a validation filter marks an object as filtered without
error, the `ApplyTask` loop emits an `Apply` event with operation
`Unchanged` for that object and records the object as a resource
failure in the task context. -/
theorem applyTask_filtered_unchanged_captured (env : task.ApplyEnv)
    (o : object.ObjMetadata)
    (hinfo : env.buildInfo o = .ok ()) (hfilt : env.filterRes o = .ok true) :
    task.processOne env o =
      [task.TraceEv.applyEvent o .unchanged,
       task.TraceEv.captureResourceFailure o] :=
  processOne_filtered env o hinfo hfilt

/-- Witness for C10 at the concrete environment `envEx` and the secret
identity, which `envEx` filters without error. -/
theorem applyTask_filtered_unchanged_captured_witness :
    envEx.buildInfo secretObj.id = .ok () ∧
    envEx.filterRes secretObj.id = .ok true ∧
    task.processOne envEx secretObj.id =
      [task.TraceEv.applyEvent secretObj.id .unchanged,
       task.TraceEv.captureResourceFailure secretObj.id] :=
  ⟨rfl, rfl, applyTask_filtered_unchanged_captured envEx secretObj.id rfl rfl⟩

/-- C7: the client-side-apply fallback fires for an object exactly when
the per-object pipeline reaches the apply step (info build, filter and
mutation all succeed without filtering), server-side apply is enabled,
the object is an `APIService` in group `apiregistration.k8s.io`, and
`ao.Run` fails with an error containing `"stream error: stream ID "`;
for any other object or error the fallback is not taken. -/
theorem apiservice_stream_fallback (env : task.ApplyEnv) (o : object.ObjMetadata) :
    task.TraceEv.clientSideApplied o ∈ task.processOne env o ↔
      ((env.buildInfo o).isOk = true ∧ env.filterRes o = .ok false ∧
       (env.mutateRes o).isOk = true ∧
       env.serverSideApply = true ∧ task.isAPIService o = true ∧
       ∃ msg, env.applyRes o = some msg ∧ task.isStreamError msg = true) := by
  cases hb : env.buildInfo o with
  | error e =>
    rw [processOne_info_error env o e hb]
    simp [Except.isOk, Except.toBool]
  | ok u =>
    cases u
    cases hf : env.filterRes o with
    | error e =>
      rw [processOne_filter_error env o e hb hf]
      simp
    | ok b =>
      cases b with
      | true =>
        rw [processOne_filtered env o hb hf]
        simp
      | false =>
        cases hm : env.mutateRes o with
        | error e =>
          rw [processOne_mutate_error env o e hb hf hm]
          simp [Except.isOk, Except.toBool]
        | ok u2 =>
          cases u2
          rw [processOne_apply env o hb hf hm]
          cases ha : env.applyRes o with
          | none =>
            rw [applyPhase_no_error env o ha]
            simp [clientSideApplied_not_mem_successTrace env o o,
                  Except.isOk, Except.toBool]
          | some msg =>
            by_cases hcond : env.serverSideApply = true ∧
                task.isAPIService o = true ∧ task.isStreamError msg = true
            · cases hc : env.clientSideRes o with
              | none =>
                rw [applyPhase_fallback_ok env o msg ha hcond hc]
                simp [Except.isOk, Except.toBool, hcond.1, hcond.2.1, hcond.2.2]
              | some e2 =>
                rw [applyPhase_fallback_error env o msg e2 ha hcond hc]
                simp [Except.isOk, Except.toBool, hcond.1, hcond.2.1, hcond.2.2]
            · rw [applyPhase_plain_error env o msg ha hcond]
              constructor
              · intro hmem; simp at hmem
              · rintro ⟨-, -, -, hssa, hapi, msg2, hmsg2, hstream⟩
                injection hmsg2 with heq
                subst heq
                exact absurd ⟨hssa, hapi, hstream⟩ hcond

/-- C8: a per-object failure (info-building error, filter error,
mutation error, or final apply error) makes the loop emit an
`ApplyFailed` event for that object only; the remaining objects are
still processed and the task still signals completion on its task
channel after the loop. -/
theorem applyTask_failure_isolated (env : task.ApplyEnv)
    (pre post : List object.ObjMetadata) (o : object.ObjMetadata)
    (h : failsAt env o) :
    (∃ k, task.TraceEv.applyFailed o k ∈ task.processOne env o) ∧
    (∀ id k, task.TraceEv.applyFailed id k ∈ task.processOne env o → id = o) ∧
    task.runApplyTask env none (pre ++ o :: post) =
      pre.flatMap (task.processOne env) ++ task.processOne env o ++
      post.flatMap (task.processOne env) ++ [task.TraceEv.taskResult] := by
  refine ⟨?_, fun id k => processOne_applyFailed_only env o id k, ?_⟩
  · cases hb : env.buildInfo o with
    | error e => rw [processOne_info_error env o e hb]; exact ⟨.unknownType, by simp⟩
    | ok u =>
      cases u
      rcases h with ⟨e, he⟩ | ⟨e, he⟩ | ⟨hfilt, e, he⟩ | ⟨hfilt, hmut, happ⟩
      · rw [hb] at he; cases he
      · rw [processOne_filter_error env o e hb he]
        exact ⟨.filterFailed, by simp⟩
      · rw [processOne_mutate_error env o e hb hfilt he]
        exact ⟨.mutateFailed, by simp⟩
      · rw [processOne_apply env o hb hfilt hmut]
        unfold finalApplyError at happ
        cases ha : env.applyRes o with
        | none => rw [ha] at happ; simp at happ
        | some msg =>
          simp only [ha] at happ
          by_cases hcond : env.serverSideApply = true ∧
              task.isAPIService o = true ∧ task.isStreamError msg = true
          · rw [if_pos hcond] at happ
            cases hc : env.clientSideRes o with
            | none => rw [hc] at happ; simp at happ
            | some e2 =>
              rw [applyPhase_fallback_error env o msg e2 ha hcond hc]
              exact ⟨.applyRun, by simp⟩
          · rw [applyPhase_plain_error env o msg ha hcond]
            exact ⟨.applyRun, by simp⟩
  · simp [task.runApplyTask, List.flatMap_append, List.flatMap_cons, List.append_assoc]

/-- Witness for C8 at the concrete environment `envEx` and the
deployment identity, whose mutation fails there. -/
theorem applyTask_failure_isolated_witness :
    failsAt envEx deploymentObj.id ∧
    ((∃ k, task.TraceEv.applyFailed deploymentObj.id k ∈
        task.processOne envEx deploymentObj.id) ∧
     (∀ id k, task.TraceEv.applyFailed id k ∈
        task.processOne envEx deploymentObj.id → id = deploymentObj.id) ∧
     task.runApplyTask envEx none ([secretObj.id] ++ deploymentObj.id :: []) =
       [secretObj.id].flatMap (task.processOne envEx) ++
       task.processOne envEx deploymentObj.id ++
       ([] : List object.ObjMetadata).flatMap (task.processOne envEx) ++
       [task.TraceEv.taskResult]) :=
  have hf : failsAt envEx deploymentObj.id :=
    Or.inr (Or.inr (Or.inl ⟨rfl, ⟨_, rfl⟩⟩))
  ⟨hf, applyTask_failure_isolated envEx [secretObj.id] [] deploymentObj.id hf⟩

/-- C5: the substitution step of `ApplyTimeMutator.Mutate` — an empty
token replaces the whole target value by the source value; a non-empty
token requires a string target (otherwise an error) and replaces every
occurrence of the token by the stringified source value, where strings
pass through unchanged, ints and bools are `%v`-formatted, and
maps/lists are JSON-marshaled. -/
theorem mutator_substitution (tv sv : mutator.KrmValue) (tok : GoStr) :
    (tok = [] → mutator.applySubValue tv sv tok = .ok sv) ∧
    (∀ s, tv = .str s → tok ≠ [] →
       mutator.applySubValue tv sv tok =
         .ok (.str (goReplaceAll s tok (mutator.valueToString sv)))) ∧
    ((∀ s, tv ≠ .str s) → tok ≠ [] →
       ∃ e, mutator.applySubValue tv sv tok = .error e) ∧
    (∀ s, mutator.valueToString (.str s) = s) ∧
    (∀ n, mutator.valueToString (.int n) = mutator.intToDec n) ∧
    (∀ b, mutator.valueToString (.bool b) =
       (if b then "true".toList else "false".toList)) ∧
    (∀ xs, mutator.valueToString (.list xs) = mutator.jsonMarshal (.list xs)) ∧
    (∀ kvs, mutator.valueToString (.map kvs) = mutator.jsonMarshal (.map kvs)) := by
  refine ⟨fun h => by simp [mutator.applySubValue, h],
          fun s hs hne => ?_, fun hns hne => ?_,
          fun s => rfl, fun n => rfl, fun b => rfl, fun xs => rfl, fun kvs => rfl⟩
  · subst hs; simp [mutator.applySubValue, hne]
  · unfold mutator.applySubValue
    rw [if_neg hne]
    cases tv with
    | str s => exact absurd rfl (hns s)
    | null => exact ⟨_, rfl⟩
    | bool b => exact ⟨_, rfl⟩
    | int n => exact ⟨_, rfl⟩
    | list xs => exact ⟨_, rfl⟩
    | map kvs => exact ⟨_, rfl⟩

/-- Witness for C5: the spec substitution scenario — the source value
`XYZ` is substituted for the token in the target URL string. -/
theorem mutator_substitution_witness :
    mutator.applySubValue (.str "https://$\x7bSECRET\x7d/path".toList)
        (.str "XYZ".toList) "$\x7bSECRET\x7d".toList =
      .ok (.str "https://XYZ/path".toList) := by
  have h := (mutator_substitution (.str "https://$\x7bSECRET\x7d/path".toList)
      (.str "XYZ".toList) "$\x7bSECRET\x7d".toList).2.1 _ rfl (by decide)
  rw [h]
  rfl

/-- C6 (counterexample): `readFieldValue` does not reject every path
that fails to begin with a dot — the guard only rejects the empty path
and paths beginning with `$.`, and otherwise defers to the opaque path
engine, which the specification leaves free to succeed (for example on
the valid dotless yq expression `length`). -/
theorem fieldPath_guard_counterexample :
    goStartsWith "length".toList ['.'] = false ∧
    mutator.readFieldValue constGet .null "length".toList = .ok (some (.int 1)) :=
  ⟨rfl, rfl⟩

/-- C6 (amended): reading or writing with an empty path or a path
beginning with `$.` returns an error, and the opaque `kyq` Get/Set
primitives are not consulted at all (so the target object cannot be
modified). -/
theorem fieldPath_guard
    (kyqGet : mutator.KrmValue → GoStr → Except GoStr (Option mutator.KrmValue))
    (kyqSet : mutator.KrmValue → GoStr → mutator.KrmValue → Except GoStr mutator.KrmValue)
    (obj value : mutator.KrmValue) (path : GoStr)
    (h : path = [] ∨ goStartsWith path "$.".toList = true) :
    (∃ e, mutator.readFieldValue kyqGet obj path = .error e) ∧
    (∃ e, mutator.writeFieldValue kyqSet obj path value = .error e) ∧
    (∀ g2, mutator.readFieldValue kyqGet obj path =
           mutator.readFieldValue g2 obj path) ∧
    (∀ s2, mutator.writeFieldValue kyqSet obj path value =
           mutator.writeFieldValue s2 obj path value) := by
  unfold mutator.readFieldValue mutator.writeFieldValue
  rcases h with h | h
  · subst h
    exact ⟨⟨_, rfl⟩, ⟨_, rfl⟩, fun g2 => rfl, fun s2 => rfl⟩
  · have h' : goStartsWith path ['$', '.'] = true := h
    have hne : path ≠ [] := by
      rintro rfl; simp [goStartsWith] at h
    simp only [if_neg hne, if_pos h, if_pos h']
    refine ⟨⟨_, rfl⟩, ⟨_, rfl⟩, ?_, ?_⟩ <;>
      first | trivial | exact fun _ => rfl | exact fun _ => trivial

/-- Witness for C6 at the concrete path `$.spec` and always-succeeding
opaque primitives. -/
theorem fieldPath_guard_witness :
    ("$.spec".toList = [] ∨ goStartsWith "$.spec".toList "$.".toList = true) ∧
    ((∃ e, mutator.readFieldValue constGet .null "$.spec".toList = .error e) ∧
     (∃ e, mutator.writeFieldValue constSet .null "$.spec".toList .null = .error e) ∧
     (∀ g2, mutator.readFieldValue constGet .null "$.spec".toList =
            mutator.readFieldValue g2 .null "$.spec".toList) ∧
     (∀ s2, mutator.writeFieldValue constSet .null "$.spec".toList .null =
            mutator.writeFieldValue s2 .null "$.spec".toList .null)) :=
  ⟨Or.inr rfl,
   fieldPath_guard constGet constSet .null .null "$.spec".toList (Or.inr rfl)⟩

/-! ## Lemmas for identity serialization (C1) -/

lemma splitFirst_eq (c : Char) (pre post : GoStr) (h : c ∉ pre) :
    splitFirst c (pre ++ c :: post) = some (pre, post) := by
  induction pre with
  | nil => simp [splitFirst]
  | cons a as ih =>
    have ha : a ≠ c := fun hac => h (hac ▸ List.mem_cons_self a as)
    have h2 : c ∉ as := fun hmem => h (List.mem_cons_of_mem a hmem)
    simp only [List.cons_append, splitFirst, if_neg ha, List.append_eq, ih h2]

lemma splitLast_eq (c : Char) (pre post : GoStr) (h : c ∉ post) :
    splitLast c (pre ++ c :: post) = some (pre, post) := by
  have hrev : (pre ++ c :: post).reverse = post.reverse ++ c :: pre.reverse := by
    simp [List.reverse_append]
  have h2 : c ∉ post.reverse := by simpa using h
  unfold splitLast
  rw [hrev, splitFirst_eq c post.reverse pre.reverse h2]
  simp

lemma grf_nil (pat rep : GoStr) (fuel : Nat) :
    goReplaceAllFuel pat rep fuel [] = [] := by
  cases fuel <;> rfl

lemma transcode_cons_hit (rest : GoStr) (fuel : Nat) :
    goReplaceAllFuel [':'] ['_', '_'] (fuel + 1) (':' :: rest) =
      '_' :: '_' :: goReplaceAllFuel [':'] ['_', '_'] fuel rest := by
  simp [goReplaceAllFuel, goStartsWith]

lemma transcode_cons_miss (c : Char) (rest : GoStr) (fuel : Nat) (hc : c ≠ ':') :
    goReplaceAllFuel [':'] ['_', '_'] (fuel + 1) (c :: rest) =
      c :: goReplaceAllFuel [':'] ['_', '_'] fuel rest := by
  simp [goReplaceAllFuel, goStartsWith, hc]

lemma untranscode_cons_hit (rest : GoStr) (fuel : Nat) :
    goReplaceAllFuel ['_', '_'] [':'] (fuel + 1) ('_' :: '_' :: rest) =
      ':' :: goReplaceAllFuel ['_', '_'] [':'] fuel rest := by
  simp [goReplaceAllFuel, goStartsWith]

lemma untranscode_cons_miss (c : Char) (rest : GoStr) (fuel : Nat) (hc : c ≠ '_') :
    goReplaceAllFuel ['_', '_'] [':'] (fuel + 1) (c :: rest) =
      c :: goReplaceAllFuel ['_', '_'] [':'] fuel rest := by
  simp [goReplaceAllFuel, goStartsWith, hc]

lemma untranscode_id (s : GoStr) (h : '_' ∉ s) :
    ∀ fuel, s.length ≤ fuel → goReplaceAllFuel ['_', '_'] [':'] fuel s = s := by
  induction s with
  | nil => intro fuel _; exact grf_nil _ _ _
  | cons c rest ih =>
    intro fuel hlen
    have hc : c ≠ '_' := fun hc => h (hc ▸ List.mem_cons_self c rest)
    have h2 : '_' ∉ rest := fun hm => h (List.mem_cons_of_mem c hm)
    cases fuel with
    | zero => simp at hlen
    | succ f =>
      rw [untranscode_cons_miss c rest f hc, ih h2 f (by simpa using hlen)]

lemma untranscode_transcode (s : GoStr) (h : '_' ∉ s) :
    ∀ f1, s.length ≤ f1 →
    ∀ f2, (goReplaceAllFuel [':'] ['_', '_'] f1 s).length ≤ f2 →
      goReplaceAllFuel ['_', '_'] [':'] f2 (goReplaceAllFuel [':'] ['_', '_'] f1 s) = s := by
  induction s with
  | nil => intro f1 _ f2 _; rw [grf_nil, grf_nil]
  | cons c rest ih =>
    intro f1 hl1 f2 hl2
    have hc : c ≠ '_' := fun hcu => h (hcu ▸ List.mem_cons_self c rest)
    have h2 : '_' ∉ rest := fun hm => h (List.mem_cons_of_mem c hm)
    cases f1 with
    | zero => simp at hl1
    | succ g1 =>
      have hr1 : rest.length ≤ g1 := by simpa using hl1
      by_cases hcolon : c = ':'
      · subst hcolon
        rw [transcode_cons_hit rest g1] at hl2 ⊢
        cases f2 with
        | zero => simp at hl2
        | succ g2 =>
          rw [untranscode_cons_hit _ g2]
          rw [ih h2 g1 hr1 g2 (by simp at hl2; omega)]
      · rw [transcode_cons_miss c rest g1 hcolon] at hl2 ⊢
        cases f2 with
        | zero => simp at hl2
        | succ g2 =>
          rw [untranscode_cons_miss c _ g2 hc]
          rw [ih h2 g1 hr1 g2 (by simpa using hl2)]

lemma parse_concat (ns tname nm g k : GoStr)
    (h1 : '_' ∉ ns) (h3 : '_' ∉ g) (h4 : '_' ∉ k)
    (hun : goReplaceAll tname ['_', '_'] [':'] = nm)
    (h2 : '_' ∉ nm) (hname : nm ≠ []) (hkind : k ≠ []) :
    object.parseObjMetadata (ns ++ '_' :: (tname ++ '_' :: (g ++ '_' :: k))) =
      some ⟨ns, nm, ⟨g, k⟩⟩ := by
  have hassoc : ns ++ '_' :: (tname ++ '_' :: (g ++ '_' :: k)) =
      ns ++ '_' :: ((tname ++ '_' :: g) ++ '_' :: k) := by
    simp [List.append_assoc]
  rw [hassoc]
  unfold object.parseObjMetadata
  rw [splitFirst_eq '_' ns ((tname ++ '_' :: g) ++ '_' :: k) h1]
  simp only [splitLast_eq '_' (tname ++ '_' :: g) k h4,
             splitLast_eq '_' tname g h3, hun]
  rw [if_neg h2]
  unfold object.createObjMetadata
  rw [if_neg hname, if_neg hkind]

lemma parse_objString (o : object.ObjMetadata)
    (hname : o.Name ≠ []) (hkind : o.GroupKind.kind ≠ [])
    (hfree : underscoreFree o) :
    object.parseObjMetadata (object.objString o) = some o := by
  obtain ⟨ns, nm, gk⟩ := o
  obtain ⟨g, k⟩ := gk
  obtain ⟨h1, h2, h3, h4⟩ := hfree
  unfold object.objString
  by_cases hrbac : object.isRBACGroupKind ⟨g, k⟩ = true
  · simp only [hrbac, if_true]
    exact parse_concat ns _ nm g k h1 h3 h4
      (by
        unfold goReplaceAll
        exact untranscode_transcode nm h2 nm.length le_rfl _ le_rfl)
      h2 hname hkind
  · simp only [hrbac, if_false]
    exact parse_concat ns nm nm g k h1 h3 h4
      (by
        unfold goReplaceAll
        exact untranscode_id nm h2 _ le_rfl)
      h2 hname hkind

/-- C1 (counterexample): the round-trip fails on a non-RBAC identity
whose name contains a double underscore — parsing un-transcodes `__`
to `:` unconditionally, so `a__b` comes back as `a:b`. -/
theorem objMetadata_roundtrip_counterexample :
    doubleUnderscoreId.Name ≠ [] ∧ doubleUnderscoreId.GroupKind.kind ≠ [] ∧
    object.parseObjMetadata (object.objString doubleUnderscoreId) ≠
      some doubleUnderscoreId :=
  ⟨by decide, by decide, by decide⟩

/-- C1 (amended): for identities with non-empty name and kind whose
namespace, name, group and kind contain no `_` (RBAC names may still
contain `:`), parsing the serialized form returns the original
identity, and serialization is injective over such identities. -/
theorem objMetadata_roundtrip_injective (o o' : object.ObjMetadata)
    (hname : o.Name ≠ []) (hkind : o.GroupKind.kind ≠ [])
    (hfree : underscoreFree o)
    (hname' : o'.Name ≠ []) (hkind' : o'.GroupKind.kind ≠ [])
    (hfree' : underscoreFree o') :
    object.parseObjMetadata (object.objString o) = some o ∧
    (object.objString o = object.objString o' → o = o') := by
  refine ⟨parse_objString o hname hkind hfree, fun heq => ?_⟩
  have ha := parse_objString o hname hkind hfree
  have hb := parse_objString o' hname' hkind' hfree'
  rw [heq] at ha
  rw [ha] at hb
  injection hb

/-- Witness for C1 at a ClusterRole with a colon in its name and a
plain Deployment identity. -/
theorem objMetadata_roundtrip_injective_witness :
    (clusterRoleId.Name ≠ [] ∧ clusterRoleId.GroupKind.kind ≠ [] ∧
     underscoreFree clusterRoleId ∧
     plainId.Name ≠ [] ∧ plainId.GroupKind.kind ≠ [] ∧ underscoreFree plainId) ∧
    (object.parseObjMetadata (object.objString clusterRoleId) = some clusterRoleId ∧
     (object.objString clusterRoleId = object.objString plainId →
       clusterRoleId = plainId)) :=
  ⟨by decide,
   objMetadata_roundtrip_injective clusterRoleId plainId (by decide) (by decide)
     (by decide) (by decide) (by decide) (by decide)⟩

/-! ## Hash and set equality (C4) -/

/-- C4 (counterexample): `SetEquals` ignores duplicates but `Hash`
hashes each slice element, so a slice with a repeated identity hashes
differently from its deduplicated form. -/
theorem hash_setEquals_counterexample :
    object.SetEquals [tinyId, tinyId] [tinyId] = true ∧
    object.Hash [tinyId, tinyId] ≠ object.Hash [tinyId] :=
  ⟨by decide, by decide⟩

/-- C4 (amended): for duplicate-free slices, `SetEquals S S2` implies
`Hash S = Hash S2` — the hash depends only on set membership. -/
theorem hash_eq_of_setEquals_nodup (S S2 : List object.ObjMetadata)
    (hset : object.SetEquals S S2 = true) (h1 : S.Nodup) (h2 : S2.Nodup) :
    object.Hash S = object.Hash S2 := by
  have hperm : S2.Perm S := by
    simp only [object.SetEquals, Bool.and_eq_true, decide_eq_true_eq,
      List.all_eq_true, h1.dedup, h2.dedup] at hset
    obtain ⟨hlen, hsub⟩ := hset
    exact (List.subperm_of_subset h2 hsub).perm_of_length_le (le_of_eq hlen)
  have hps : (S.map object.objString).Perm (S2.map object.objString) :=
    (hperm.map object.objString).symm
  have hsorted : object.sortStrings (S.map object.objString) =
      object.sortStrings (S2.map object.objString) := by
    apply List.eq_of_perm_of_sorted (r := fun a b : GoStr => a ≤ b)
    · exact (List.perm_insertionSort _ _).trans
        (hps.trans (List.perm_insertionSort _ _).symm)
    · exact List.sorted_insertionSort _ _
    · exact List.sorted_insertionSort _ _
  unfold object.Hash object.calcHash
  rw [hsorted]

/-- Witness for C4 at two duplicate-free slices holding the same two
identities in opposite orders. -/
theorem hash_eq_of_setEquals_nodup_witness :
    (object.SetEquals [tinyId, plainId] [plainId, tinyId] = true ∧
     ([tinyId, plainId] : List object.ObjMetadata).Nodup ∧
     ([plainId, tinyId] : List object.ObjMetadata).Nodup) ∧
    object.Hash [tinyId, plainId] = object.Hash [plainId, tinyId] :=
  ⟨⟨by decide, by decide, by decide⟩,
   hash_eq_of_setEquals_nodup [tinyId, plainId] [plainId, tinyId]
     (by decide) (by decide) (by decide)⟩

/-! ## Lemmas for the dependency resolver (C2, C3) -/

lemma mem_addEdge (e : graph.Edge) (es : List graph.Edge) (a b : object.ObjMetadata) :
    e ∈ graph.addEdge es a b → e ∈ es ∨ e = (a, b) := by
  unfold graph.addEdge
  split
  · exact Or.inl
  · split
    · exact Or.inl
    · intro h
      rcases List.mem_append.mp h with h | h
      · exact Or.inl h
      · simp at h; exact Or.inr h

lemma mem_foldl_addEdge (l : List graph.Edge) :
    ∀ (es : List graph.Edge) (e : graph.Edge),
      e ∈ l.foldl (fun es2 e2 => graph.addEdge es2 e2.1 e2.2) es → e ∈ es ∨ e ∈ l := by
  induction l with
  | nil => intro es e h; exact Or.inl h
  | cons x xs ih =>
    intro es e h
    rcases ih (graph.addEdge es x.1 x.2) e h with h2 | h2
    · rcases mem_addEdge e es x.1 x.2 h2 with h3 | h3
      · exact Or.inl h3
      · right
        obtain ⟨p, q⟩ := x
        rw [h3]
        exact List.mem_cons_self _ _
    · exact Or.inr (List.mem_cons_of_mem _ h2)

lemma graphEdges_sub_candidates (objs : List graph.KObj) (e : graph.Edge) :
    e ∈ graph.graphEdges objs → e ∈ graph.candidateEdges objs := by
  intro h
  rcases mem_foldl_addEdge _ _ _ h with h2 | h2
  · simp at h2
  · exact h2

lemma candidate_endpoints (objs : List graph.KObj) (e : graph.Edge)
    (h : e ∈ graph.candidateEdges objs) :
    e.1 ∈ graph.vertices objs ∧ e.2 ∈ graph.vertices objs := by
  have hin : ∀ x : object.ObjMetadata,
      x ∈ graph.inputIds objs → x ∈ graph.vertices objs := by
    intro x hx
    unfold graph.vertices
    rw [List.mem_dedup]
    exact List.mem_append_left _ hx
  have href : ∀ o : graph.KObj, o ∈ objs →
      ∀ dep, dep ∈ o.dependsOn ++ o.mutationRefs → dep ∈ graph.vertices objs := by
    intro o ho dep hdep
    by_cases hd : dep ∈ graph.inputIds objs
    · exact hin dep hd
    · unfold graph.vertices
      rw [List.mem_dedup]
      apply List.mem_append_right
      unfold graph.externalIds
      rw [List.mem_dedup, List.mem_filter]
      exact ⟨List.mem_flatMap.mpr ⟨o, ho, hdep⟩, by simpa using hd⟩
  unfold graph.candidateEdges at h
  rcases List.mem_append.mp h with h | h4
  · rcases List.mem_append.mp h with h | h3
    · rcases List.mem_append.mp h with h1 | h2
      · obtain ⟨o, ho, hmem⟩ := List.mem_flatMap.mp h1
        obtain ⟨dep, hdep, heq⟩ := List.mem_map.mp hmem
        subst heq
        exact ⟨hin o.id (List.mem_map.mpr ⟨o, ho, rfl⟩),
               href o ho dep (List.mem_append_left _ hdep)⟩
      · obtain ⟨o, ho, hmem⟩ := List.mem_flatMap.mp h2
        obtain ⟨dep, hdep, heq⟩ := List.mem_map.mp hmem
        subst heq
        exact ⟨hin o.id (List.mem_map.mpr ⟨o, ho, rfl⟩),
               href o ho dep (List.mem_append_right _ hdep)⟩
    · obtain ⟨o, ho, hmem⟩ := List.mem_flatMap.mp h3
      obtain ⟨ns, hns, heq⟩ := List.mem_filterMap.mp hmem
      split at heq
      · injection heq with heq2
        subst heq2
        exact ⟨hin o.id (List.mem_map.mpr ⟨o, ho, rfl⟩),
               hin ns.id (List.mem_map.mpr ⟨ns, hns, rfl⟩)⟩
      · cases heq
  · obtain ⟨cr, hcr, hmem⟩ := List.mem_flatMap.mp h4
    obtain ⟨crd, hcrd, heq⟩ := List.mem_filterMap.mp hmem
    split at heq
    · split at heq
      · injection heq with heq2
        subst heq2
        exact ⟨hin cr.id (List.mem_map.mpr ⟨cr, hcr, rfl⟩),
               hin crd.id (List.mem_map.mpr ⟨crd, hcrd, rfl⟩)⟩
      · cases heq
    · cases heq

lemma layersAux_ok_subset (edges : List graph.Edge) :
    ∀ (fuel : Nat) (remaining : List object.ObjMetadata)
      (W : List (List object.ObjMetadata)),
      graph.layersAux edges fuel remaining = .ok W →
      ∀ w ∈ W, ∀ v ∈ w, v ∈ remaining := by
  intro fuel
  induction fuel with
  | zero =>
    intro remaining W h w hw v hv
    unfold graph.layersAux at h
    split at h
    · cases h; simp at hw
    · cases h
  | succ n ih =>
    intro remaining W h w hw v hv
    unfold graph.layersAux at h
    split at h
    · cases h; simp at hw
    · split at h
      · cases h
      · split at h
        · cases h
        · rename_i ws hrec
          cases h
          rcases List.mem_cons.mp hw with rfl | hw2
          · exact List.mem_of_mem_filter hv
          · exact List.mem_of_mem_filter (ih _ ws hrec w hw2 v hv)

lemma layersAux_edge_lt (edges : List graph.Edge) :
    ∀ (fuel : Nat) (remaining : List object.ObjMetadata)
      (W : List (List object.ObjMetadata)),
      graph.layersAux edges fuel remaining = .ok W →
      ∀ (a b : object.ObjMetadata), (a, b) ∈ edges →
      ∀ (i j : Nat) (hi : i < W.length) (hj : j < W.length),
        a ∈ W.get ⟨i, hi⟩ → b ∈ W.get ⟨j, hj⟩ → j < i := by
  intro fuel
  induction fuel with
  | zero =>
    intro remaining W h a b hab i j hi hj ha hb
    unfold graph.layersAux at h
    split at h
    · cases h; simp at hi
    · cases h
  | succ n ih =>
    intro remaining W h a b hab i j hi hj ha hb
    unfold graph.layersAux at h
    split at h
    · cases h; simp at hi
    · split at h
      · cases h
      · split at h
        · cases h
        · rename_i ws hrec
          cases h
          cases i with
          | zero =>
            exfalso
            have haleaf : graph.isLeaf edges remaining a = true :=
              (List.mem_filter.mp ha).2
            have hbrem : b ∈ remaining := by
              cases j with
              | zero => exact List.mem_of_mem_filter hb
              | succ j2 =>
                have hj2 : j2 < ws.length := by
                  simpa using hj
                have hwmem : ws.get ⟨j2, hj2⟩ ∈ ws := ws.get_mem j2 hj2
                have hb2 : b ∈ ws.get ⟨j2, hj2⟩ := by
                  simpa using hb
                exact List.mem_of_mem_filter
                  (layersAux_ok_subset edges n _ ws hrec _ hwmem b hb2)
            unfold graph.isLeaf at haleaf
            rw [Bool.not_eq_eq_eq_not, Bool.not_true, List.any_eq_false] at haleaf
            have := haleaf (a, b) hab
            simp only [decide_eq_true_eq] at this
            exact this ⟨trivial, hbrem⟩
          | succ i2 =>
            cases j with
            | zero => exact Nat.succ_pos i2
            | succ j2 =>
              have hi2 : i2 < ws.length := by simpa using hi
              have hj2 : j2 < ws.length := by simpa using hj
              have := ih _ ws hrec a b hab i2 j2 hi2 hj2
                (by simpa using ha) (by simpa using hb)
              omega

lemma chain_next {α : Type} {r : α → α → Prop} :
    ∀ (l : List α) (start last : α), List.Chain r start (l ++ [last]) →
      ∀ x ∈ start :: l, ∃ y ∈ start :: (l ++ [last]), r x y := by
  intro l
  induction l with
  | nil =>
    intro start last h x hx
    have hxs : x = start := by simpa using hx
    subst hxs
    cases h with
    | cons hr htail => exact ⟨last, by simp, hr⟩
  | cons w l2 ih =>
    intro start last h x hx
    cases h with
    | cons hr htail =>
      rcases List.mem_cons.mp hx with rfl | hx2
      · exact ⟨w, by simp, hr⟩
      · obtain ⟨y, hy, hr2⟩ := ih w last htail x hx2
        exact ⟨y, List.mem_cons_of_mem _ (by simpa using hy), hr2⟩

lemma cycle_closure (edges : List graph.Edge) (c : List object.ObjMetadata)
    (hc : graph.IsCycle edges c) : ∀ x ∈ c, ∃ y ∈ c, (x, y) ∈ edges := by
  unfold graph.IsCycle at hc
  cases c with
  | nil => exact absurd hc (by simp)
  | cons v rest =>
    intro x hx
    obtain ⟨y, hy, hr⟩ := chain_next rest v v hc x hx
    refine ⟨y, ?_, hr⟩
    rcases List.mem_cons.mp hy with rfl | hy2
    · exact List.mem_cons_self _ _
    · rcases List.mem_append.mp hy2 with hy3 | hy3
      · exact List.mem_cons_of_mem _ hy3
      · have : y = v := by simpa using hy3
        subst this
        exact List.mem_cons_self _ _

lemma layersAux_cycle_error (edges : List graph.Edge)
    (c : List object.ObjMetadata) (hne : c ≠ [])
    (hclo : ∀ x ∈ c, ∃ y ∈ c, (x, y) ∈ edges) :
    ∀ (fuel : Nat) (remaining : List object.ObjMetadata),
      (∀ x ∈ c, x ∈ remaining) →
      ∃ rem, graph.layersAux edges fuel remaining =
        .error (.cyclicDependency rem) := by
  have hx0 : ∃ x, x ∈ c := by
    cases c with
    | nil => exact absurd rfl hne
    | cons v rest => exact ⟨v, List.mem_cons_self v rest⟩
  obtain ⟨x0, hx0⟩ := hx0
  intro fuel
  induction fuel with
  | zero =>
    intro remaining hsub
    have hner : remaining ≠ [] := by
      intro hr
      subst hr
      exact absurd (hsub x0 hx0) (List.not_mem_nil x0)
    exact ⟨remaining, by unfold graph.layersAux; rw [if_neg hner]⟩
  | succ n ih =>
    intro remaining hsub
    have hner : remaining ≠ [] := by
      intro hr
      subst hr
      exact absurd (hsub x0 hx0) (List.not_mem_nil x0)
    have hnl : ∀ x ∈ c, ¬(graph.isLeaf edges remaining x = true) := by
      intro x hx hleaf
      obtain ⟨y, hy, hxy⟩ := hclo x hx
      unfold graph.isLeaf at hleaf
      rw [Bool.not_eq_eq_eq_not, Bool.not_true, List.any_eq_false] at hleaf
      have := hleaf (x, y) hxy
      simp only [decide_eq_true_eq] at this
      exact this ⟨trivial, hsub y hy⟩
    by_cases hle : remaining.filter (graph.isLeaf edges remaining) = []
    · refine ⟨remaining, ?_⟩
      unfold graph.layersAux
      rw [if_neg hner, if_pos hle]
    · have hsub2 : ∀ x ∈ c, x ∈ remaining.filter
          (fun v => decide (v ∉ remaining.filter (graph.isLeaf edges remaining))) := by
        intro x hx
        rw [List.mem_filter]
        refine ⟨hsub x hx, ?_⟩
        rw [decide_eq_true_eq]
        intro hmem
        exact hnl x hx (List.mem_filter.mp hmem).2
      obtain ⟨rem, hrem⟩ := ih _ hsub2
      refine ⟨rem, ?_⟩
      unfold graph.layersAux
      rw [if_neg hner, if_neg hle, hrem]

/-- C2: whenever the resolver succeeds, every dependency edge `a → b`
of the graph built from the four edge sources satisfies
`wave(b) < wave(a)`; and the namespace-wave scenario
(Namespace, Deployment, Secret in `test-namespace`) yields exactly the
waves `[[Namespace], [Secret, Deployment]]` with no external
dependencies. -/
theorem resolver_waves_respect_edges (objs : List graph.KObj)
    (waves : List (List object.ObjMetadata)) (a b : object.ObjMetadata)
    (i j : Nat) (hsort : graph.sortIds objs = .ok waves)
    (he : (a, b) ∈ graph.graphEdges objs)
    (hi : i < waves.length) (hj : j < waves.length)
    (ha : a ∈ waves.get ⟨i, hi⟩) (hb : b ∈ waves.get ⟨j, hj⟩) :
    j < i ∧ graph.sortObjs nsScenario =
      .ok ([[namespaceObj], [secretObj, deploymentObj]], [[], []]) :=
  ⟨layersAux_edge_lt (graph.graphEdges objs) (graph.vertices objs).length
     (graph.vertices objs) waves hsort a b he i j hi hj ha hb, rfl⟩

/-- Witness for C2 at the namespace-wave scenario, on the edge from the
secret to its namespace (waves 1 and 0). -/
theorem resolver_waves_respect_edges_witness :
    (graph.sortIds nsScenario =
       .ok [[namespaceObj.id], [secretObj.id, deploymentObj.id]] ∧
     (secretObj.id, namespaceObj.id) ∈ graph.graphEdges nsScenario) ∧
    (0 < 1 ∧ graph.sortObjs nsScenario =
       .ok ([[namespaceObj], [secretObj, deploymentObj]], [[], []])) :=
  ⟨⟨rfl, by decide⟩,
   resolver_waves_respect_edges nsScenario
     [[namespaceObj.id], [secretObj.id, deploymentObj.id]]
     secretObj.id namespaceObj.id 1 0 rfl (by decide)
     (by decide) (by decide) (by decide) (by decide)⟩

/-- C3: if the dependency graph of the input contains a directed
cycle, the resolver returns `CyclicDependencyError` and produces no
waves at all. -/
theorem resolver_cycle_error (objs : List graph.KObj)
    (c : List object.ObjMetadata)
    (hc : graph.IsCycle (graph.graphEdges objs) c) :
    ∃ rem, graph.sortObjs objs =
      .error (graph.SortError.cyclicDependency rem) := by
  have hclo := cycle_closure _ c hc
  have hne : c ≠ [] := by
    intro hnil
    rw [hnil] at hc
    simp [graph.IsCycle] at hc
  have hsub : ∀ x ∈ c, x ∈ graph.vertices objs := by
    intro x hx
    obtain ⟨y, hy, hxy⟩ := hclo x hx
    exact (candidate_endpoints objs (x, y)
      (graphEdges_sub_candidates objs (x, y) hxy)).1
  obtain ⟨rem, hrem⟩ := layersAux_cycle_error (graph.graphEdges objs) c hne hclo
    (graph.vertices objs).length (graph.vertices objs) hsub
  refine ⟨rem, ?_⟩
  unfold graph.sortObjs graph.sortIds
  rw [hrem]

/-- Witness for C3 at the two-object cycle (deployment depends on
secret, secret depends on deployment). -/
theorem resolver_cycle_error_witness :
    graph.IsCycle (graph.graphEdges cycScenario)
      [deploymentObj.id, secretObj.id] ∧
    ∃ rem, graph.sortObjs cycScenario =
      .error (graph.SortError.cyclicDependency rem) :=
  have hcyc : graph.IsCycle (graph.graphEdges cycScenario)
      [deploymentObj.id, secretObj.id] :=
    List.Chain.cons (by decide) (List.Chain.cons (by decide) List.Chain.nil)
  ⟨hcyc, resolver_cycle_error cycScenario _ hcyc⟩
